import Mathlib

/-!
# Verification of the difync reconciliation engine

A shallow embedding, in Lean 4, of the core synchronization logic of
`difync` (package `internal/syncer`, richest variant: the one providing
rename/deletion detection inside `SyncAll`, together with `models.go`,
whose `SyncAction` carries exactly the constants `ActionNone`,
`ActionDownload`, `ActionError` and whose `SyncStats` has the counters
`Total`, `Downloads`, `NoAction`, `Errors`).

Modelling conventions:
* `time.Time` values are modelled as `Int` (seconds on a linear time
  axis, Unix epoch = 0).  `t1.After(t2)` is `t2 < t1`.  The zero value
  of `time.Time` (January 1, year 1 UTC) is `goZeroTime`.
* The DSL directory is modelled as an association list from filename to
  file info (mod time and content); paths are elided since every file
  the engine touches lives in the single configured directory.
* The layout cascade of `time.Parse` calls for string timestamps is
  abstracted by an oracle `parseTimestamp : String → Option Int`: the
  engine's behaviour depends on the string only through the first
  successful parse, so this abstraction is exact.
* Remote API calls (`DoesDSLExist`, `GetAppInfo`, `GetDSL`,
  `GetAppList`) are oracles returning `Option`; `none` models a
  transport error.  The richest variant never mutates the remote.
* Wall-clock reads (`time.Now`, the mod time stamped by
  `os.WriteFile`) are abstracted by `Config.now`; the `Timestamp`,
  `StartTime`, `EndTime`, `Duration` fields, which only record wall
  clock instants, are omitted.
* `os.Remove` / `os.Rename` failures are logged warnings in the source
  and processing continues; they are modelled as no-ops on the
  filesystem state.  `os.WriteFile` and the mapping-file rewrite are
  modelled as always succeeding (their failure paths only change the
  returned error, which no claim depends on, except where noted).
-/

namespace Difync

/-! ## Decimal representation: `Nat.repr` is injective

`fmt.Sprintf("%s_%d.yaml", base, counter)` builds the deduplication
candidates; to reason about the candidate stream we need that distinct
counters give distinct strings, i.e. injectivity of the decimal
representation.  We relate core's fuelled `Nat.toDigitsCore` to a
fuel-free recursion and invert it by evaluating the digits. -/

/-- Fuel-free decimal digit list of a natural number (most significant
first), agreeing with core's `Nat.toDigits 10`. -/
def decDigits (n : Nat) : List Char :=
  if _h : n < 10 then [Nat.digitChar n]
  else decDigits (n / 10) ++ [Nat.digitChar (n % 10)]
decreasing_by exact Nat.div_lt_self (by omega) (by omega)

theorem toDigitsCore_eq_decDigits (fuel : Nat) :
    ∀ n ds, n < fuel → Nat.toDigitsCore 10 fuel n ds = decDigits n ++ ds := by
  induction fuel with
  | zero => intro n ds h; omega
  | succ f ih =>
    intro n ds h
    show (if n / 10 = 0 then Nat.digitChar (n % 10) :: ds
          else Nat.toDigitsCore 10 f (n / 10) (Nat.digitChar (n % 10) :: ds)) =
        decDigits n ++ ds
    by_cases h10 : n / 10 = 0
    · have hn : n < 10 := by omega
      have hmod : n % 10 = n := Nat.mod_eq_of_lt hn
      rw [if_pos h10, decDigits, dif_pos hn, hmod]
      rfl
    · have hn : ¬ n < 10 := by
        intro hlt
        exact h10 (Nat.div_eq_of_lt hlt)
      have hdiv : n / 10 < f := by
        have h1 : n / 10 < n := Nat.div_lt_self (by omega) (by omega)
        omega
      rw [if_neg h10, ih (n / 10) (Nat.digitChar (n % 10) :: ds) hdiv]
      conv_rhs => rw [decDigits]
      rw [dif_neg hn, List.append_assoc]
      rfl

theorem toDigits_eq_decDigits (n : Nat) : Nat.toDigits 10 n = decDigits n := by
  have h := toDigitsCore_eq_decDigits (n + 1) n [] (by omega)
  simpa [Nat.toDigits] using h

/-- Numeric value of a digit character list (inverse of `decDigits`). -/
def digitsVal (l : List Char) : Nat :=
  l.foldl (fun a c => 10 * a + (c.toNat - 48)) 0

theorem digitChar_toNat (d : Nat) (h : d < 10) :
    (Nat.digitChar d).toNat = 48 + d := by
  interval_cases d <;> rfl

theorem digitsVal_append_singleton (l : List Char) (c : Char) :
    digitsVal (l ++ [c]) = 10 * digitsVal l + (c.toNat - 48) := by
  simp [digitsVal, List.foldl_append]

theorem digitsVal_decDigits (n : Nat) : digitsVal (decDigits n) = n := by
  induction n using Nat.strong_induction_on with
  | _ n ih =>
    by_cases h : n < 10
    · rw [decDigits, dif_pos h]
      simp [digitsVal, digitChar_toNat n h]
    · rw [decDigits, dif_neg h, digitsVal_append_singleton,
        ih (n / 10) (Nat.div_lt_self (by omega) (by omega)),
        digitChar_toNat (n % 10) (Nat.mod_lt n (by omega))]
      omega

theorem natReprData_inj {m n : Nat}
    (h : (Nat.repr m).data = (Nat.repr n).data) : m = n := by
  have hm : (Nat.repr m).data = decDigits m := by
    simp [Nat.repr, List.asString, toDigits_eq_decDigits]
  have hn : (Nat.repr n).data = decDigits n := by
    simp [Nat.repr, List.asString, toDigits_eq_decDigits]
  have : decDigits m = decDigits n := by rw [← hm, ← hn, h]
  calc m = digitsVal (decDigits m) := (digitsVal_decDigits m).symm
    _ = digitsVal (decDigits n) := by rw [this]
    _ = n := digitsVal_decDigits n

/-! ## Filename deduplication candidates

The Go loops (`InitializeAppMap` and the rename handling in `SyncAll`)
probe the candidate stream `safeName.yaml`, `safeName_1.yaml`,
`safeName_2.yaml`, … and return the first candidate that is neither on
disk nor (for initialization) already claimed in this run.  `candName`
is that stream; `dedupName` is the first free candidate, computed with
fuel that `dedupName_not_mem` proves sufficient. -/

/-- The candidate filename stream: index 0 is `base.yaml`, index `k+1`
is `base_<k+1>.yaml` (`fmt.Sprintf("%s_%d.yaml", base, counter)`). -/
def candName (base : String) : Nat → String
  | 0 => base ++ ".yaml"
  | k + 1 => base ++ "_" ++ Nat.repr (k + 1) ++ ".yaml"

theorem candName_inj {base : String} {i j : Nat}
    (h : candName base i = candName base j) : i = j := by
  have hd := congrArg String.data h
  match i, j with
  | 0, 0 => rfl
  | 0, k + 1 =>
    exfalso
    simp only [candName, String.data_append, List.append_assoc] at hd
    have := List.append_cancel_left hd
    simp at this
  | k + 1, 0 =>
    exfalso
    simp only [candName, String.data_append, List.append_assoc] at hd
    have := List.append_cancel_left hd
    simp at this
  | k + 1, m + 1 =>
    simp only [candName, String.data_append, List.append_assoc] at hd
    have h1 := List.append_cancel_left (List.append_cancel_left hd)
    have h2 := List.append_cancel_right h1
    have := natReprData_inj h2
    omega

/-- Pigeonhole: among the first `bad.length + 2` candidates, at least
one is not in `bad`. -/
theorem exists_free_candidate (bad : List String) (base : String) :
    ∃ j, j < bad.length + 2 ∧ candName base j ∉ bad := by
  by_contra hc
  push_neg at hc
  have hmaps : ∀ j ∈ Finset.range (bad.length + 2), candName base j ∈ bad.toFinset := by
    intro j hj
    rw [List.mem_toFinset]
    exact hc j (Finset.mem_range.mp hj)
  have hinj : Set.InjOn (candName base) ↑(Finset.range (bad.length + 2)) :=
    fun a _ b _ hab => candName_inj hab
  have hcard := Finset.card_le_card_of_injOn (candName base) hmaps hinj
  rw [Finset.card_range] at hcard
  have := List.toFinset_card_le bad
  omega

/-- The probe loop: starting at candidate index `i`, return the first
candidate not in `bad`, giving up (and returning the current
candidate) when fuel runs out. -/
def dedupFrom (bad : List String) (base : String) : Nat → Nat → String
  | 0, i => candName base i
  | fuel + 1, i =>
    if candName base i ∈ bad then dedupFrom bad base fuel (i + 1)
    else candName base i

/-- First deduplication candidate not in `bad`; the fuel
`bad.length + 2` is sufficient by `exists_free_candidate`. -/
def dedupName (bad : List String) (base : String) : String :=
  dedupFrom bad base (bad.length + 2) 0

theorem dedupFrom_not_mem (bad : List String) (base : String) :
    ∀ fuel i, (∃ j, i ≤ j ∧ j < i + fuel ∧ candName base j ∉ bad) →
      dedupFrom bad base fuel i ∉ bad := by
  intro fuel
  induction fuel with
  | zero =>
    intro i ⟨j, h1, h2, _⟩
    omega
  | succ f ih =>
    intro i ⟨j, h1, h2, h3⟩
    show (if candName base i ∈ bad then dedupFrom bad base f (i + 1)
          else candName base i) ∉ bad
    by_cases hmem : candName base i ∈ bad
    · rw [if_pos hmem]
      refine ih (i + 1) ⟨j, ?_, by omega, h3⟩
      rcases Nat.eq_or_lt_of_le h1 with heq | hlt
      · exact absurd (heq ▸ hmem) h3
      · omega
    · rwa [if_neg hmem]

/-- The name `dedupName` returns is never in its bad set: the produced
filename is free both of the reserved set and of the files on disk. -/
theorem dedupName_not_mem (bad : List String) (base : String) :
    dedupName bad base ∉ bad := by
  obtain ⟨j, hj, hfree⟩ := exists_free_candidate bad base
  exact dedupFrom_not_mem bad base (bad.length + 2) 0 ⟨j, by omega, by omega, hfree⟩

theorem dedupName_eq_of_first_free {bad : List String} {base : String}
    (h : candName base 0 ∉ bad) : dedupName bad base = candName base 0 := by
  show (if candName base 0 ∈ bad then dedupFrom bad base (bad.length + 1) 1
        else candName base 0) = candName base 0
  rw [if_neg h]

/-! ## Data model (`models.go`)

`SyncAction` carries exactly the three constants defined in
`models.go` of the richest variant: `ActionNone`, `ActionDownload`,
`ActionError`; there is no upload constant.  `SyncStats` has the
counters `Total`, `Downloads`, `NoAction`, `Errors` and no upload
counter (wall-clock fields omitted, see header). -/

inductive SyncAction where
  | ActionNone
  | ActionDownload
  | ActionError
deriving DecidableEq

/-- `AppMapping` from `models.go`: one entry of the persisted mapping. -/
structure AppMapping where
  filename : String
  appID : String
deriving DecidableEq

/-- `AppMap` from `models.go`: the persisted mapping document. -/
structure AppMap where
  apps : List AppMapping
deriving DecidableEq

/-- `SyncResult` from `models.go` (the `Timestamp` wall-clock field is
omitted; `error = none` models a nil `Error` field). -/
structure SyncResult where
  filename : String
  appID : String
  action : SyncAction
  success : Bool
  error : Option String
deriving DecidableEq

/-- `SyncStats` from `models.go` (wall-clock fields omitted). -/
structure SyncStats where
  total : Nat
  downloads : Nat
  noAction : Nat
  errors : Nat
deriving DecidableEq

/-! ## Filesystem model

The DSL directory as an association list filename → file info.  Mod
times are `Int` seconds; see the header for the `time.Time` model. -/

/-- Stat data of one local file. -/
structure FileInfo where
  modTime : Int
  content : String
deriving DecidableEq

/-- The DSL directory: filenames paired with their file info. -/
abbrev FS : Type := List (String × FileInfo)

/-- `os.Stat` inside the DSL directory: `none` models the
"file does not exist" error. -/
def FS.statF (fs : FS) (name : String) : Option FileInfo :=
  (List.find? (fun p => p.1 = name) fs).map Prod.snd

/-- `fileExists` from `syncer.go` (`os.Stat` + `os.IsNotExist`). -/
def FS.existsF (fs : FS) (name : String) : Bool :=
  (fs.statF name).isSome

/-- The filenames present on disk. -/
def FS.names (fs : FS) : List String :=
  List.map Prod.fst fs

/-- `os.Remove`: drops the file; removing a missing file is the
error case that `SyncAll` only logs, hence a no-op here. -/
def FS.removeF (fs : FS) (name : String) : FS :=
  List.filter (fun p => p.1 ≠ name) fs

/-- `os.WriteFile`: overwrite an existing file in place or create the
file. -/
def FS.writeF (fs : FS) (name : String) (fi : FileInfo) : FS :=
  if fs.existsF name then
    List.map (fun p => if p.1 = name then (name, fi) else p) fs
  else fs ++ [(name, fi)]

/-- `os.Rename`: moves the file, replacing any existing target; a
missing source is the error case that `SyncAll` only logs, hence a
no-op here. -/
def FS.renameF (fs : FS) (old new : String) : FS :=
  match fs.statF old with
  | none => fs
  | some fi => (fs.removeF old).writeF new fi

/-! ## Remote API model (`internal/api`) -/

/-- The dynamically typed `updated_at` value (`interface{}` in
`api.AppInfo`), as one constructor per case of the type switch in
`SyncApp`.  Numeric cases carry the value after Go's conversion to
`int64` (which truncates a `float64`'s fractional part);
`jsonNumber none` is a `json.Number` whose `Int64()` fails; `other` is
any further shape (e.g. a nested object). -/
inductive RawUpdatedAt where
  | null
  | str (s : String)
  | floatV (seconds : Int)
  | intV (seconds : Int)
  | int64V (seconds : Int)
  | jsonNumber (asInt : Option Int)
  | other
deriving DecidableEq

/-- `api.AppInfo`: the remote record (id, display name, raw
timestamp). -/
structure AppInfo where
  id : String
  name : String
  updatedAt : RawUpdatedAt
deriving DecidableEq

/-- The remote API client as oracles; `none` models a transport
error.  `parseTimestamp` abstracts the `time.Parse` layout cascade for
string timestamps: `some t` is the instant of the first successful
parse, `none` means every layout failed. -/
structure Remote where
  doesDSLExist : String → Option Bool
  getAppInfo : String → Option AppInfo
  getDSL : String → Option String
  appList : Option (List AppInfo)
  parseTimestamp : String → Option Int

/-- `Config` from `syncer.go` (connection parameters and paths elided;
`now` abstracts the wall clock stamped on files written this run). -/
structure Config where
  dryRun : Bool
  verbose : Bool
  now : Int
deriving DecidableEq

/-! ## Filename sanitizer (`sanitizeFilename` in `syncer.go`) -/

/-- Go's `unicode.IsSpace`: the Unicode `White_Space` code points. -/
def goIsSpace (c : Char) : Bool :=
  let n := c.toNat
  (9 ≤ n && n ≤ 13) || n = 32 || n = 0x85 || n = 0xA0 || n = 0x1680 ||
    (0x2000 ≤ n && n ≤ 0x200A) || n = 0x2028 || n = 0x2029 ||
    n = 0x202F || n = 0x205F || n = 0x3000

/-- The `invalidChars` slice from `sanitizeFilename`. -/
def invalidChars : List Char := ['/', '\\', ':', '*', '?', '\x22', '<', '>', '|']

/-- The character loop of `sanitizeFilename`: whitespace becomes `_`,
characters in `invalidChars` are dropped, everything else passes
through. -/
def sanitizeChars : List Char → List Char
  | [] => []
  | c :: rest =>
    if goIsSpace c then '_' :: sanitizeChars rest
    else if c ∈ invalidChars then sanitizeChars rest
    else c :: sanitizeChars rest

/-- `sanitizeFilename`: run the character loop over the name's runes;
an empty result falls back to the literal `"app"`. -/
def sanitizeFilename (name : String) : String :=
  let l := sanitizeChars name.data
  if l.isEmpty then "app" else ⟨l⟩

/-! ## Timestamp conversion (the `updated_at` switch in `SyncApp`) -/

/-- Unix seconds of the zero `time.Time` (January 1, year 1 UTC), the
value `remoteModTime` keeps when a non-empty string fails every parse
layout. -/
def goZeroTime : Int := -62135596800

/-- Outcome of the conversion block: the computed `remoteModTime` and
the `useLocalTime` flag (`true` is the sentinel meaning "no usable
remote timestamp"). -/
structure ConvertedTime where
  remoteModTime : Int
  useLocalTime : Bool
deriving DecidableEq

/-- The `interface{}` switch of `SyncApp` (lines 491–562): `null` and
`""` set `useLocalTime` with `time.Unix(0, 0)`; a non-empty string
takes the first successful parse, and if every layout fails
`remoteModTime` keeps the zero `time.Time` with `useLocalTime`
remaining `false`; numeric shapes are epoch seconds; a failing
`json.Number` and unknown shapes set `useLocalTime`. -/
def convertUpdatedAt (parseTimestamp : String → Option Int) :
    RawUpdatedAt → ConvertedTime
  | .null => ⟨0, true⟩
  | .str s =>
    if s ≠ "" then
      match parseTimestamp s with
      | some t => ⟨t, false⟩
      | none => ⟨goZeroTime, false⟩
    else ⟨0, true⟩
  | .floatV v => ⟨v, false⟩
  | .intV v => ⟨v, false⟩
  | .int64V v => ⟨v, false⟩
  | .jsonNumber (some i) => ⟨i, false⟩
  | .jsonNumber none => ⟨0, true⟩
  | .other => ⟨0, true⟩

/-! ## Pair sync (`SyncApp` / `downloadFromRemote`) -/

/-- `downloadFromRemote`: fetch the DSL (transport failure keeps
`Action = Download` with `success = false`); in dry-run mode report
success without writing; otherwise overwrite the local file (the
`os.WriteFile` failure path is not modelled, see header). -/
def downloadFromRemote (cfg : Config) (r : Remote) (fs : FS)
    (app : AppMapping) : SyncResult × FS :=
  match r.getDSL app.appID with
  | none =>
    (⟨app.filename, app.appID, .ActionDownload, false,
      some "failed to get DSL from Dify"⟩, fs)
  | some dsl =>
    if cfg.dryRun then
      (⟨app.filename, app.appID, .ActionDownload, true, none⟩, fs)
    else
      (⟨app.filename, app.appID, .ActionDownload, true, none⟩,
        fs.writeF app.filename ⟨cfg.now, dsl⟩)

/-- `SyncApp` (richest variant, lines 434–583): stat the local file,
check remote existence, fetch the remote record, convert its
timestamp, and download only when the remote time is strictly after
the local modification time. -/
def syncApp (cfg : Config) (r : Remote) (fs : FS)
    (app : AppMapping) : SyncResult × FS :=
  match fs.statF app.filename with
  | none =>
    (⟨app.filename, app.appID, .ActionError, false,
      some "failed to stat local file"⟩, fs)
  | some localInfo =>
    match r.doesDSLExist app.appID with
    | none =>
      (⟨app.filename, app.appID, .ActionError, false,
        some "failed to check if app exists"⟩, fs)
    | some false =>
      (⟨app.filename, app.appID, .ActionNone, true, none⟩, fs)
    | some true =>
      match r.getAppInfo app.appID with
      | none =>
        (⟨app.filename, app.appID, .ActionError, false,
          some "failed to get app info"⟩, fs)
      | some info =>
        let c := convertUpdatedAt r.parseTimestamp info.updatedAt
        if c.useLocalTime then
          (⟨app.filename, app.appID, .ActionNone, true, none⟩, fs)
        else if localInfo.modTime < c.remoteModTime then
          downloadFromRemote cfg r fs app
        else
          (⟨app.filename, app.appID, .ActionNone, true, none⟩, fs)

/-! ## Reconciliation run (`SyncAll`, richest variant, lines 233–431) -/

/-- The `remoteApps` map built from `GetAppList`: Go's
`for _, app := range list { m[app.ID] = app }` keeps the last record
per id, hence the lookup on the reversed list. -/
def lookupRemoteApp (l : List AppInfo) (id : String) : Option AppInfo :=
  List.find? (fun a => a.id = id) l.reverse

/-- The `switch result.Action` statistics fold in `SyncAll` (the
richest variant has no upload case). -/
def tallyAction (s : SyncStats) : SyncAction → SyncStats
  | .ActionDownload => { s with downloads := s.downloads + 1 }
  | .ActionNone => { s with noAction := s.noAction + 1 }
  | .ActionError => { s with errors := s.errors + 1 }

/-- Mutable state of the `SyncAll` loop: the disk, the statistics, and
the `deletedApps` / `renamedApps` accumulators.  (`nameChanges` is
written but never read in the source and is omitted.) -/
structure LoopSt where
  fs : FS
  stats : SyncStats
  deletedApps : List AppMapping
  renamedApps : List AppMapping
deriving DecidableEq

/-- One iteration of the `SyncAll` loop over a mapping entry:
existence check (a check error is only logged and the entry skipped),
deletion handling, rename handling (deduplicated against the current
disk contents only), else delegate to `SyncApp` and tally. -/
def processApp (cfg : Config) (r : Remote)
    (remoteApps : String → Option AppInfo) (st : LoopSt)
    (app : AppMapping) : LoopSt :=
  match r.doesDSLExist app.appID with
  | none => st
  | some false =>
    { st with
      fs := if cfg.dryRun then st.fs else st.fs.removeF app.filename
      stats := { st.stats with downloads := st.stats.downloads + 1 }
      deletedApps := st.deletedApps ++ [app] }
  | some true =>
    let runSync : LoopSt :=
      let rs := syncApp cfg r st.fs app
      { st with fs := rs.2, stats := tallyAction st.stats rs.1.action }
    match remoteApps app.appID with
    | none => runSync
    | some remoteApp =>
      let safeName := sanitizeFilename remoteApp.name
      if app.filename ≠ safeName ++ ".yaml" then
        let expected := dedupName st.fs.names safeName
        { st with
          fs := if cfg.dryRun then st.fs
            else st.fs.renameF app.filename expected
          renamedApps := st.renamedApps ++ [⟨expected, app.appID⟩] }
      else runSync

/-- The `SyncAll` entry loop: a plain fold, with no early exit. -/
def syncLoop (cfg : Config) (r : Remote)
    (remoteApps : String → Option AppInfo) (apps : List AppMapping)
    (st : LoopSt) : LoopSt :=
  apps.foldl (processApp cfg r remoteApps) st

/-- The mapping `SyncAll` persists when entries were deleted or
renamed: walk the original entries, skip those whose id is in
`deleted`, substitute the first matching entry of `renamed`. -/
def updatedAppsList (apps deleted renamed : List AppMapping) :
    List AppMapping :=
  (apps.filter (fun a => ! deleted.any (fun d => d.appID = a.appID))).map
    (fun a =>
      match renamed.find? (fun rn => rn.appID = a.appID) with
      | some rn => rn
      | none => a)

/-- `SyncAll`: abort (`none`) when the mapping fails to load
(`loadResult = none`) or `GetAppList` fails; otherwise run the loop
over every entry and, if anything was deleted or renamed and this is
not a dry run, rewrite the mapping file.  The returned triple is the
statistics, the final disk state, and the rewritten mapping document
(`none` when the mapping file was not touched).  The mapping-file
write failure path is not modelled (see header). -/
def syncAll (cfg : Config) (r : Remote) (loadResult : Option AppMap)
    (fs0 : FS) : Option (SyncStats × FS × Option AppMap) :=
  match loadResult with
  | none => none
  | some appMap =>
    match r.appList with
    | none => none
    | some remoteAppList =>
      let st0 : LoopSt :=
        ⟨fs0, ⟨appMap.apps.length, 0, 0, 0⟩, [], []⟩
      let st := syncLoop cfg r (lookupRemoteApp remoteAppList)
        appMap.apps st0
      if (st.deletedApps.length > 0 ∨ st.renamedApps.length > 0) ∧
          cfg.dryRun = false then
        some (st.stats, st.fs,
          some ⟨updatedAppsList appMap.apps st.deletedApps st.renamedApps⟩)
      else
        some (st.stats, st.fs, none)

/-! ## Initialization (`InitializeAppMap`, lines 78–186) -/

/-- Mutable state of the `InitializeAppMap` loop: the disk, the
`usedFilenames` set (as a list), and the accumulated mapping
entries. -/
structure InitSt where
  fs : FS
  used : List String
  apps : List AppMapping
deriving DecidableEq

/-- One iteration of `InitializeAppMap`: sanitize the name,
deduplicate against both the current disk contents and the filenames
already claimed this run, record the entry, and download the initial
DSL when the file is absent (skipping the write on dry run or fetch
failure). -/
def initStep (cfg : Config) (r : Remote) (st : InitSt)
    (app : AppInfo) : InitSt :=
  let safeName := sanitizeFilename app.name
  let filename := dedupName (st.fs.names ++ st.used) safeName
  let fs' :=
    if st.fs.existsF filename then st.fs
    else
      match r.getDSL app.id with
      | none => st.fs
      | some dsl =>
        if cfg.dryRun then st.fs
        else st.fs.writeF filename ⟨cfg.now, dsl⟩
  ⟨fs', st.used ++ [filename], st.apps ++ [⟨filename, app.id⟩]⟩

/-- `InitializeAppMap`: abort on a `GetAppList` failure or an empty
app list, otherwise build the mapping (directory creation and the
mapping-file write are elided; the file is only written when not in
dry-run mode). -/
def initializeAppMap (cfg : Config) (r : Remote) (fs0 : FS) :
    Option (AppMap × FS) :=
  match r.appList with
  | none => none
  | some appList =>
    if appList.isEmpty then none
    else
      let st := appList.foldl (initStep cfg r) ⟨fs0, [], []⟩
      some (⟨st.apps⟩, st.fs)

/-! ## Helper lemmas about the sanitizer -/

theorem sanitizeChars_append (a b : List Char) :
    sanitizeChars (a ++ b) = sanitizeChars a ++ sanitizeChars b := by
  induction a with
  | nil => rfl
  | cons c rest ih =>
    show sanitizeChars (c :: (rest ++ b)) = sanitizeChars (c :: rest) ++ sanitizeChars b
    rw [sanitizeChars, sanitizeChars]
    by_cases hs : goIsSpace c
    · simp [hs, ih]
    · by_cases hi : c ∈ invalidChars
      · simp [hs, hi, ih]
      · simp [hs, hi, ih]

theorem sanitizeChars_all_space (ws : List Char)
    (h : ∀ c ∈ ws, goIsSpace c) :
    sanitizeChars ws = List.replicate ws.length '_' := by
  induction ws with
  | nil => rfl
  | cons c rest ih =>
    rw [sanitizeChars, if_pos (h c (by simp)), ih (fun d hd => h d (by simp [hd]))]
    rfl

theorem mem_sanitizeChars_not_invalid (l : List Char) :
    ∀ c ∈ sanitizeChars l, c ∉ invalidChars := by
  induction l with
  | nil => intro c hc; simp [sanitizeChars] at hc
  | cons d rest ih =>
    intro c hc
    rw [sanitizeChars] at hc
    by_cases hs : goIsSpace d
    · rw [if_pos hs] at hc
      rcases List.mem_cons.mp hc with h1 | h2
      · subst h1; decide
      · exact ih c h2
    · rw [if_neg hs] at hc
      by_cases hi : d ∈ invalidChars
      · rw [if_pos hi] at hc
        exact ih c hc
      · rw [if_neg hi] at hc
        rcases List.mem_cons.mp hc with h1 | h2
        · subst h1; exact hi
        · exact ih c h2

/-- C8.  For every display name the sanitized output contains no
character from the reserved set `/ \ : * ? " < > |` (those characters
are dropped, not substituted — a kept character is passed through
unchanged), every maximal run of Unicode whitespace becomes an
equal-length run of underscores, non-whitespace non-reserved
characters pass through unchanged, and an input that sanitizes to the
empty string yields the literal fallback `"app"`. -/
theorem sanitizeFilename_spec :
    (∀ name : String, ∀ c ∈ (sanitizeFilename name).data, c ∉ invalidChars) ∧
    (∀ a ws b : List Char, (∀ c ∈ ws, goIsSpace c) →
      sanitizeChars (a ++ ws ++ b) =
        sanitizeChars a ++ List.replicate ws.length '_' ++ sanitizeChars b) ∧
    (∀ c : Char, ¬ goIsSpace c → c ∉ invalidChars → sanitizeChars [c] = [c]) ∧
    sanitizeFilename "" = "app" := by
  refine ⟨?_, ?_, ?_, rfl⟩
  · intro name c hc
    rw [sanitizeFilename] at hc
    by_cases he : (sanitizeChars name.data).isEmpty
    · simp only [he, if_pos] at hc
      have : c ∈ ['a', 'p', 'p'] := hc
      fin_cases this <;> decide
    · simp only [he, if_neg, Bool.false_eq_true, not_false_iff] at hc
      exact mem_sanitizeChars_not_invalid name.data c hc
  · intro a ws b h
    rw [sanitizeChars_append, sanitizeChars_append, sanitizeChars_all_space ws h]
  · intro c hs hi
    rw [sanitizeChars, if_neg hs, if_neg hi]
    rfl

/-- Witness for C8: concrete instantiations discharging each
hypothesis. -/
theorem sanitizeFilename_spec_witness :
    (Char.ofNat 47 ∈ (sanitizeFilename "a/ b").data → Char.ofNat 47 ∉ invalidChars) ∧
    sanitizeChars (['x'] ++ [' ', '\t'] ++ ['y']) =
      sanitizeChars ['x'] ++ List.replicate 2 '_' ++ sanitizeChars ['y'] ∧
    sanitizeChars ['q'] = ['q'] ∧
    sanitizeFilename "" = "app" :=
  ⟨fun h => sanitizeFilename_spec.1 "a/ b" (Char.ofNat 47) h,
    sanitizeFilename_spec.2.1 ['x'] [' ', '\t'] ['y'] (by decide),
    sanitizeFilename_spec.2.2.1 'q' (by decide) (by decide),
    sanitizeFilename_spec.2.2.2⟩

/-! ## Pair-sync decision lemmas -/

theorem downloadFromRemote_action (cfg : Config) (r : Remote) (fs : FS)
    (app : AppMapping) :
    (downloadFromRemote cfg r fs app).1.action = .ActionDownload := by
  rw [downloadFromRemote]
  cases r.getDSL app.appID with
  | none => rfl
  | some dsl =>
    by_cases h : cfg.dryRun <;> simp [h]

/-- C2.  For every pair with a usable (non-`Unknown`) normalized
remote timestamp (stat, existence check and record fetch succeeding),
the decision is `Download` if and only if the normalized remote time
is strictly after the local file's modification time; when the two
times are exactly equal the result is `None` with `success = true` and
the filesystem untouched — never a transfer. -/
theorem syncApp_download_iff (cfg : Config) (r : Remote) (fs : FS)
    (app : AppMapping) (li : FileInfo) (info : AppInfo)
    (hstat : fs.statF app.filename = some li)
    (hex : r.doesDSLExist app.appID = some true)
    (hinfo : r.getAppInfo app.appID = some info)
    (husable : (convertUpdatedAt r.parseTimestamp info.updatedAt).useLocalTime = false) :
    ((syncApp cfg r fs app).1.action = .ActionDownload ↔
      li.modTime < (convertUpdatedAt r.parseTimestamp info.updatedAt).remoteModTime) ∧
    (li.modTime = (convertUpdatedAt r.parseTimestamp info.updatedAt).remoteModTime →
      syncApp cfg r fs app =
        (⟨app.filename, app.appID, .ActionNone, true, none⟩, fs)) := by
  rw [syncApp, hstat, hex, hinfo]
  simp only [husable, Bool.false_eq_true, if_false]
  constructor
  · by_cases hlt :
        li.modTime < (convertUpdatedAt r.parseTimestamp info.updatedAt).remoteModTime
    · simp [hlt, downloadFromRemote_action]
    · simp [hlt]
  · intro heq
    rw [if_neg (by omega)]

/-- Witness for C2 at a concrete equal-timestamp pair. -/
theorem syncApp_download_iff_witness :
    ¬ ((syncApp ⟨false, false, 7⟩
        ⟨fun _ => some true, fun _ => some ⟨"id1", "N", .intV 50⟩,
          fun _ => some "dsl", some [], fun _ => none⟩
        [("f.yaml", ⟨50, "c"⟩)] ⟨"f.yaml", "id1"⟩).1.action = .ActionDownload) ∧
    syncApp ⟨false, false, 7⟩
        ⟨fun _ => some true, fun _ => some ⟨"id1", "N", .intV 50⟩,
          fun _ => some "dsl", some [], fun _ => none⟩
        [("f.yaml", ⟨50, "c"⟩)] ⟨"f.yaml", "id1"⟩ =
      (⟨"f.yaml", "id1", .ActionNone, true, none⟩, [("f.yaml", ⟨50, "c"⟩)]) := by
  have h := syncApp_download_iff ⟨false, false, 7⟩
    ⟨fun _ => some true, fun _ => some ⟨"id1", "N", .intV 50⟩,
      fun _ => some "dsl", some [], fun _ => none⟩
    [("f.yaml", ⟨50, "c"⟩)] ⟨"f.yaml", "id1"⟩ ⟨50, "c"⟩ ⟨"id1", "N", .intV 50⟩
    (by decide) rfl rfl (by decide)
  exact ⟨fun hd => absurd (h.1.mp hd) (by decide), h.2 (by decide)⟩

/-- C9.  The engine never pushes local content to the remote: on every
input `SyncApp`'s action is one of `None`, `Download`, `Error` — the
richest variant's `SyncAction` (`models.go`) has no upload constant,
mirrored verbatim by this embedding's `SyncAction` — and one loop
iteration either leaves the statistics unchanged or increments exactly
one of `downloads`, `noAction`, `errors`: `SyncStats` carries no
upload counter that could ever be incremented. -/
theorem syncApp_never_uploads :
    (∀ (cfg : Config) (r : Remote) (fs : FS) (app : AppMapping),
      (syncApp cfg r fs app).1.action = .ActionNone ∨
      (syncApp cfg r fs app).1.action = .ActionDownload ∨
      (syncApp cfg r fs app).1.action = .ActionError) ∧
    (∀ (cfg : Config) (r : Remote) (remoteApps : String → Option AppInfo)
        (st : LoopSt) (app : AppMapping),
      (processApp cfg r remoteApps st app).stats = st.stats ∨
      (processApp cfg r remoteApps st app).stats =
        { st.stats with downloads := st.stats.downloads + 1 } ∨
      (processApp cfg r remoteApps st app).stats =
        { st.stats with noAction := st.stats.noAction + 1 } ∨
      (processApp cfg r remoteApps st app).stats =
        { st.stats with errors := st.stats.errors + 1 }) := by
  constructor
  · intro cfg r fs app
    cases h : (syncApp cfg r fs app).1.action
    · exact Or.inl rfl
    · exact Or.inr (Or.inl rfl)
    · exact Or.inr (Or.inr rfl)
  · intro cfg r remoteApps st app
    rw [processApp]
    cases r.doesDSLExist app.appID with
    | none => exact Or.inl rfl
    | some b =>
      cases b with
      | false => exact Or.inr (Or.inl rfl)
      | true =>
        have htally : ∀ act : SyncAction, tallyAction st.stats act = st.stats ∨
            tallyAction st.stats act =
              { st.stats with downloads := st.stats.downloads + 1 } ∨
            tallyAction st.stats act =
              { st.stats with noAction := st.stats.noAction + 1 } ∨
            tallyAction st.stats act =
              { st.stats with errors := st.stats.errors + 1 } := by
          intro act
          cases act
          · exact Or.inr (Or.inr (Or.inl rfl))
          · exact Or.inr (Or.inl rfl)
          · exact Or.inr (Or.inr (Or.inr rfl))
        cases remoteApps app.appID with
        | none => exact htally (syncApp cfg r st.fs app).1.action
        | some ra =>
          dsimp only
          by_cases hne : app.filename ≠ sanitizeFilename ra.name ++ ".yaml"
          · rw [if_pos hne]
            exact Or.inl rfl
          · rw [if_neg hne]
            exact htally (syncApp cfg r st.fs app).1.action

/-- C10.  When fetching the remote content fails with a transport
error, `downloadFromRemote` returns `success = false` with the action
still recorded as `Download`, and the filesystem — in particular the
local file's content — is unchanged: the local write happens only
after a successful fetch. -/
theorem downloadFromRemote_fetch_error (cfg : Config) (r : Remote)
    (fs : FS) (app : AppMapping) (h : r.getDSL app.appID = none) :
    downloadFromRemote cfg r fs app =
      (⟨app.filename, app.appID, .ActionDownload, false,
        some "failed to get DSL from Dify"⟩, fs) := by
  rw [downloadFromRemote, h]

/-- Witness for C10 at a concrete failing fetch. -/
theorem downloadFromRemote_fetch_error_witness :
    downloadFromRemote ⟨false, false, 3⟩
        ⟨fun _ => some true, fun _ => none, fun _ => none, some [],
          fun _ => none⟩
        [("f.yaml", ⟨10, "keep"⟩)] ⟨"f.yaml", "id1"⟩ =
      (⟨"f.yaml", "id1", .ActionDownload, false,
        some "failed to get DSL from Dify"⟩, [("f.yaml", ⟨10, "keep"⟩)]) :=
  downloadFromRemote_fetch_error ⟨false, false, 3⟩
    ⟨fun _ => some true, fun _ => none, fun _ => none, some [],
      fun _ => none⟩
    [("f.yaml", ⟨10, "keep"⟩)] ⟨"f.yaml", "id1"⟩ rfl

/-- Counterexample to C1 as stated: for a remote record whose
`updated_at` is a non-empty string failing every parse layout, the
conversion does NOT yield the `useLocalTime` sentinel (the `Unknown`
marker) — `remoteModTime` silently keeps the zero `time.Time` — and
for a local file whose modification time lies before the zero
`time.Time` the decision is `Download` and a download is executed,
not `None`. -/
theorem syncApp_unparseable_counterexample :
    (convertUpdatedAt (fun _ => none)
        (.str "not-a-timestamp")).useLocalTime = false ∧
    syncApp ⟨false, false, 100⟩
        ⟨fun _ => some true,
          fun _ => some ⟨"id1", "N", .str "not-a-timestamp"⟩,
          fun _ => some "new", some [], fun _ => none⟩
        [("f.yaml", ⟨goZeroTime - 1, "old"⟩)] ⟨"f.yaml", "id1"⟩ =
      (⟨"f.yaml", "id1", .ActionDownload, true, none⟩,
        [("f.yaml", ⟨100, "new"⟩)]) := by
  constructor
  · rfl
  · rfl

/-- C1 (amended).  A nil `updated_at`, an empty string, a
`json.Number` failing integer conversion, and an unknown value shape
all normalize to the `useLocalTime` sentinel, and whenever that
sentinel is set the pair decision is `None` with `success = true`, no
transfer and no error.  A non-empty string failing every parse layout,
however, normalizes to the zero `time.Time` with the sentinel NOT set;
the decision is then `None` with `success = true` exactly when the
local modification time is not before the zero `time.Time`, and a
download otherwise. -/
theorem syncApp_unusable_timestamp_amended (cfg : Config) (r : Remote)
    (fs : FS) (app : AppMapping) (li : FileInfo) (info : AppInfo)
    (hstat : fs.statF app.filename = some li)
    (hex : r.doesDSLExist app.appID = some true)
    (hinfo : r.getAppInfo app.appID = some info) :
    (∀ raw : RawUpdatedAt,
      (raw = .null ∨ raw = .str "" ∨ raw = .jsonNumber none ∨ raw = .other) →
      (convertUpdatedAt r.parseTimestamp raw).useLocalTime = true) ∧
    ((convertUpdatedAt r.parseTimestamp info.updatedAt).useLocalTime = true →
      syncApp cfg r fs app =
        (⟨app.filename, app.appID, .ActionNone, true, none⟩, fs)) ∧
    (∀ s : String, s ≠ "" → r.parseTimestamp s = none →
      info.updatedAt = .str s →
      convertUpdatedAt r.parseTimestamp info.updatedAt = ⟨goZeroTime, false⟩ ∧
      (goZeroTime ≤ li.modTime →
        syncApp cfg r fs app =
          (⟨app.filename, app.appID, .ActionNone, true, none⟩, fs)) ∧
      (li.modTime < goZeroTime →
        syncApp cfg r fs app = downloadFromRemote cfg r fs app)) := by
  refine ⟨?_, ?_, ?_⟩
  · rintro raw (rfl | rfl | rfl | rfl) <;> rfl
  · intro hsent
    rw [syncApp, hstat, hex, hinfo]
    simp [hsent]
  · intro s hs hparse hupd
    have hconv : convertUpdatedAt r.parseTimestamp info.updatedAt =
        ⟨goZeroTime, false⟩ := by
      rw [hupd, convertUpdatedAt, if_pos hs, hparse]
    refine ⟨hconv, ?_, ?_⟩
    · intro hle
      rw [syncApp, hstat, hex, hinfo]
      simp only [hconv]
      rw [if_neg (by simp), if_neg (by simp; omega)]
    · intro hlt
      rw [syncApp, hstat, hex, hinfo]
      simp only [hconv]
      rw [if_neg (by simp), if_pos (by simpa using hlt)]

/-- Witness for the amended C1: a concrete null timestamp yields
`None`/`success`, and a concrete unparseable string with an ordinary
(post-epoch) local mod time also yields `None`/`success`. -/
theorem syncApp_unusable_timestamp_amended_witness :
    syncApp ⟨false, false, 5⟩
        ⟨fun _ => some true, fun _ => some ⟨"id1", "N", .null⟩,
          fun _ => some "d", some [], fun _ => none⟩
        [("f.yaml", ⟨10, "c"⟩)] ⟨"f.yaml", "id1"⟩ =
      (⟨"f.yaml", "id1", .ActionNone, true, none⟩, [("f.yaml", ⟨10, "c"⟩)]) ∧
    syncApp ⟨false, false, 5⟩
        ⟨fun _ => some true, fun _ => some ⟨"id1", "N", .str "garbage"⟩,
          fun _ => some "d", some [], fun _ => none⟩
        [("f.yaml", ⟨10, "c"⟩)] ⟨"f.yaml", "id1"⟩ =
      (⟨"f.yaml", "id1", .ActionNone, true, none⟩, [("f.yaml", ⟨10, "c"⟩)]) := by
  constructor
  · exact (syncApp_unusable_timestamp_amended ⟨false, false, 5⟩
      ⟨fun _ => some true, fun _ => some ⟨"id1", "N", .null⟩,
        fun _ => some "d", some [], fun _ => none⟩
      [("f.yaml", ⟨10, "c"⟩)] ⟨"f.yaml", "id1"⟩ ⟨10, "c"⟩ ⟨"id1", "N", .null⟩
      rfl rfl rfl).2.1 rfl
  · exact ((syncApp_unusable_timestamp_amended ⟨false, false, 5⟩
      ⟨fun _ => some true, fun _ => some ⟨"id1", "N", .str "garbage"⟩,
        fun _ => some "d", some [], fun _ => none⟩
      [("f.yaml", ⟨10, "c"⟩)] ⟨"f.yaml", "id1"⟩ ⟨10, "c"⟩
      ⟨"id1", "N", .str "garbage"⟩ rfl rfl rfl).2.2 "garbage"
      (by decide) rfl rfl).2.1 (by decide)

/-! ## Dry-run frame lemmas -/

theorem downloadFromRemote_dry_fs (cfg : Config) (r : Remote) (fs : FS)
    (app : AppMapping) (hdry : cfg.dryRun = true) :
    (downloadFromRemote cfg r fs app).2 = fs := by
  rw [downloadFromRemote]
  cases r.getDSL app.appID with
  | none => rfl
  | some dsl => simp [hdry]

theorem syncApp_dry_fs (cfg : Config) (r : Remote) (fs : FS)
    (app : AppMapping) (hdry : cfg.dryRun = true) :
    (syncApp cfg r fs app).2 = fs := by
  rw [syncApp]
  cases fs.statF app.filename with
  | none => rfl
  | some li =>
    cases r.doesDSLExist app.appID with
    | none => rfl
    | some b =>
      cases b with
      | false => rfl
      | true =>
        cases r.getAppInfo app.appID with
        | none => rfl
        | some info =>
          by_cases hu :
              (convertUpdatedAt r.parseTimestamp info.updatedAt).useLocalTime
          · simp [hu]
          · simp only [hu, Bool.false_eq_true, if_false]
            by_cases hlt : li.modTime <
                (convertUpdatedAt r.parseTimestamp info.updatedAt).remoteModTime
            · simp [hlt, downloadFromRemote_dry_fs cfg r fs app hdry]
            · simp [hlt]

theorem processApp_dry_fs (cfg : Config) (r : Remote)
    (remoteApps : String → Option AppInfo) (st : LoopSt)
    (app : AppMapping) (hdry : cfg.dryRun = true) :
    (processApp cfg r remoteApps st app).fs = st.fs := by
  rw [processApp]
  cases r.doesDSLExist app.appID with
  | none => rfl
  | some b =>
    cases b with
    | false => simp [hdry]
    | true =>
      cases remoteApps app.appID with
      | none => simp [syncApp_dry_fs cfg r st.fs app hdry]
      | some ra =>
        by_cases hne : app.filename ≠ sanitizeFilename ra.name ++ ".yaml"
        · simp [hne, hdry]
        · simp [hne, syncApp_dry_fs cfg r st.fs app hdry]

theorem syncLoop_dry_fs (cfg : Config) (r : Remote)
    (remoteApps : String → Option AppInfo) (apps : List AppMapping)
    (hdry : cfg.dryRun = true) :
    ∀ st : LoopSt, (syncLoop cfg r remoteApps apps st).fs = st.fs := by
  induction apps with
  | nil => intro st; rfl
  | cons a rest ih =>
    intro st
    show (syncLoop cfg r remoteApps rest (processApp cfg r remoteApps st a)).fs = st.fs
    rw [ih (processApp cfg r remoteApps st a),
      processApp_dry_fs cfg r remoteApps st a hdry]

/-- Counterexample to C6 as stated: in dry-run mode a pair whose local
file is missing still yields a result with `success = false` (action
`Error`), so "`SyncResult.success` is still `true` for every action
type" fails. -/
theorem dryRun_counterexample :
    (syncApp ⟨true, false, 0⟩
        ⟨fun _ => some true, fun _ => none, fun _ => none, some [],
          fun _ => none⟩
        [] ⟨"f.yaml", "id1"⟩).1.success = false ∧
    (syncApp ⟨true, false, 0⟩
        ⟨fun _ => some true, fun _ => none, fun _ => none, some [],
          fun _ => none⟩
        [] ⟨"f.yaml", "id1"⟩).1.action = .ActionError := by
  constructor
  · rfl
  · rfl

/-- C6 (amended).  In dry-run mode no filesystem mutation occurs
anywhere in the run — the loop leaves the disk untouched and the
mapping file is never rewritten (and the richest variant performs no
remote mutation on any path) — while each pair's action classification
is identical to a non-dry run over the same remote responses, and
every pair the non-dry run reports successful is reported successful
by the dry run; error results (failed stat, existence check, record or
content fetch) keep `success = false` exactly as in a non-dry run. -/
theorem dryRun_frame_amended (cfg : Config) (r : Remote)
    (fs0 : FS) (appMap : AppMap) (st : LoopSt)
    (remoteApps : String → Option AppInfo) (apps : List AppMapping)
    (fs : FS) (app : AppMapping) (res : SyncStats × FS × Option AppMap)
    (hdry : cfg.dryRun = true)
    (hrun : syncAll cfg r (some appMap) fs0 = some res) :
    (syncLoop cfg r remoteApps apps st).fs = st.fs ∧
    res.2.1 = fs0 ∧ res.2.2 = none ∧
    (syncApp cfg r fs app).1.action =
      (syncApp ⟨false, cfg.verbose, cfg.now⟩ r fs app).1.action ∧
    ((syncApp ⟨false, cfg.verbose, cfg.now⟩ r fs app).1.success = true →
      (syncApp cfg r fs app).1.success = true) := by
  have hmain : res.2.1 = fs0 ∧ res.2.2 = none := by
    rw [syncAll] at hrun
    cases hl : r.appList with
    | none => rw [hl] at hrun; exact absurd hrun (by simp)
    | some remoteAppList =>
      rw [hl] at hrun
      dsimp only at hrun
      rw [if_neg (by simp [hdry]), Option.some.injEq] at hrun
      rw [← hrun]
      exact ⟨syncLoop_dry_fs cfg r (lookupRemoteApp remoteAppList)
        appMap.apps hdry _, rfl⟩
  have haction : ∀ c1 c2 : Config,
      (syncApp c1 r fs app).1.action = (syncApp c2 r fs app).1.action ∧
      (syncApp c1 r fs app).1.success = (syncApp c2 r fs app).1.success := by
    intro c1 c2
    rw [syncApp, syncApp]
    cases fs.statF app.filename with
    | none => exact ⟨rfl, rfl⟩
    | some li =>
      cases r.doesDSLExist app.appID with
      | none => exact ⟨rfl, rfl⟩
      | some b =>
        cases b with
        | false => exact ⟨rfl, rfl⟩
        | true =>
          cases r.getAppInfo app.appID with
          | none => exact ⟨rfl, rfl⟩
          | some info =>
            by_cases hu :
                (convertUpdatedAt r.parseTimestamp info.updatedAt).useLocalTime
            · simp [hu]
            · simp only [hu, Bool.false_eq_true, if_false]
              by_cases hlt : li.modTime <
                  (convertUpdatedAt r.parseTimestamp info.updatedAt).remoteModTime
              · simp only [hlt, if_pos]
                rw [downloadFromRemote, downloadFromRemote]
                cases r.getDSL app.appID with
                | none => exact ⟨rfl, rfl⟩
                | some dsl =>
                  by_cases h1 : c1.dryRun <;> by_cases h2 : c2.dryRun <;>
                    simp [h1, h2]
              · simp [hlt]
  refine ⟨syncLoop_dry_fs cfg r remoteApps apps hdry st, hmain.1, hmain.2,
    (haction cfg ⟨false, cfg.verbose, cfg.now⟩).1, ?_⟩
  intro hs
  rw [(haction cfg ⟨false, cfg.verbose, cfg.now⟩).2]
  exact hs

/-- Witness for the amended C6: a concrete dry run over one entry
needing a download leaves the disk untouched, does not rewrite the
mapping, and classifies the pair as in a non-dry run. -/
theorem dryRun_frame_amended_witness :
    (syncLoop ⟨true, false, 9⟩
        ⟨fun _ => some true, fun _ => some ⟨"id1", "N", .intV 99⟩,
          fun _ => some "new", some [⟨"id1", "f", .intV 99⟩], fun _ => none⟩
        (lookupRemoteApp [⟨"id1", "f", .intV 99⟩]) [⟨"f.yaml", "id1"⟩]
        ⟨[("f.yaml", ⟨1, "old"⟩)], ⟨1, 0, 0, 0⟩, [], []⟩).fs =
      [("f.yaml", ⟨1, "old"⟩)] ∧
    (syncApp ⟨true, false, 9⟩
        ⟨fun _ => some true, fun _ => some ⟨"id1", "N", .intV 99⟩,
          fun _ => some "new", some [⟨"id1", "f", .intV 99⟩], fun _ => none⟩
        [("f.yaml", ⟨1, "old"⟩)] ⟨"f.yaml", "id1"⟩).1.action =
      (syncApp ⟨false, false, 9⟩
        ⟨fun _ => some true, fun _ => some ⟨"id1", "N", .intV 99⟩,
          fun _ => some "new", some [⟨"id1", "f", .intV 99⟩], fun _ => none⟩
        [("f.yaml", ⟨1, "old"⟩)] ⟨"f.yaml", "id1"⟩).1.action := by
  have h := dryRun_frame_amended ⟨true, false, 9⟩
    ⟨fun _ => some true, fun _ => some ⟨"id1", "N", .intV 99⟩,
      fun _ => some "new", some [⟨"id1", "f", .intV 99⟩], fun _ => none⟩
    [] ⟨[]⟩ ⟨[("f.yaml", ⟨1, "old"⟩)], ⟨1, 0, 0, 0⟩, [], []⟩
    (lookupRemoteApp [⟨"id1", "f", .intV 99⟩]) [⟨"f.yaml", "id1"⟩]
    [("f.yaml", ⟨1, "old"⟩)] ⟨"f.yaml", "id1"⟩ (⟨0, 0, 0, 0⟩, [], none)
    rfl rfl
  exact ⟨h.1, h.2.2.2.1⟩

/-! ## Loop-structure lemmas -/

theorem syncLoop_append (cfg : Config) (r : Remote)
    (remoteApps : String → Option AppInfo) (xs ys : List AppMapping)
    (st : LoopSt) :
    syncLoop cfg r remoteApps (xs ++ ys) st =
      syncLoop cfg r remoteApps ys (syncLoop cfg r remoteApps xs st) :=
  List.foldl_append (processApp cfg r remoteApps) st xs ys

/-- Counterexample to C3 as stated: (a) with the mapping loaded
successfully, a `GetAppList` transport failure also aborts the run
before any entry is processed, so a mapping-load failure is not the
only such abort; (b) a per-entry failure of the remote existence check
is only logged and skipped — the final statistics count zero
errors. -/
theorem errorIsolation_counterexample :
    syncAll ⟨false, false, 0⟩
        ⟨fun _ => some true, fun _ => none, fun _ => none, none,
          fun _ => none⟩
        (some ⟨[⟨"f.yaml", "id1"⟩]⟩) [] = none ∧
    syncAll ⟨false, false, 0⟩
        ⟨fun _ => none, fun _ => none, fun _ => none, some [],
          fun _ => none⟩
        (some ⟨[⟨"f.yaml", "id1"⟩]⟩) [("f.yaml", ⟨1, "c"⟩)] =
      some (⟨1, 0, 0, 0⟩, [("f.yaml", ⟨1, "c"⟩)], none) := by
  constructor
  · rfl
  · rfl

/-- C3 (amended).  The entry loop is a plain fold with no early exit,
so an error on one entry never stops processing of subsequent entries;
a failed mapping load, and equally a failed `GetAppList`, abort the
run before any entry is processed; a per-entry existence-check failure
is only logged and leaves the state (statistics included) unchanged;
and the errors surfaced by the pair sync decision (`ActionError`) are
counted in the `errors` statistic rather than thrown. -/
theorem errorIsolation_amended (cfg : Config) (r : Remote)
    (remoteApps : String → Option AppInfo) (fs0 : FS) :
    (∀ xs ys st, syncLoop cfg r remoteApps (xs ++ ys) st =
      syncLoop cfg r remoteApps ys (syncLoop cfg r remoteApps xs st)) ∧
    syncAll cfg r none fs0 = none ∧
    (r.appList = none → ∀ lr, syncAll cfg r lr fs0 = none) ∧
    (∀ st app, r.doesDSLExist app.appID = none →
      processApp cfg r remoteApps st app = st) ∧
    (∀ st app, r.doesDSLExist app.appID = some true →
      (∀ ra, remoteApps app.appID = some ra →
        app.filename = sanitizeFilename ra.name ++ ".yaml") →
      (syncApp cfg r st.fs app).1.action = .ActionError →
      (processApp cfg r remoteApps st app).stats.errors =
        st.stats.errors + 1) := by
  refine ⟨fun xs ys st => syncLoop_append cfg r remoteApps xs ys st,
    rfl, ?_, ?_, ?_⟩
  · intro hl lr
    cases lr with
    | none => rfl
    | some am => simp [syncAll, hl]
  · intro st app h
    rw [processApp, h]
  · intro st app hex hname herr
    rw [processApp, hex]
    cases hra : remoteApps app.appID with
    | none =>
      simp only []
      rw [herr]
      rfl
    | some ra =>
      have : ¬ app.filename ≠ sanitizeFilename ra.name ++ ".yaml" := by
        simpa using hname ra hra
      simp only [this, if_neg, ite_false, if_false]
      rw [herr]
      rfl

/-- Witness for the amended C3: loop continuation after a failed
entry, abort on a failed app-list fetch, an uncounted existence-check
failure, and a counted decision error, all at concrete inputs. -/
theorem errorIsolation_amended_witness :
    syncLoop ⟨false, false, 0⟩
        ⟨fun _ => none, fun _ => none, fun _ => none, some [],
          fun _ => none⟩ (fun _ => none)
        ([⟨"a.yaml", "id1"⟩] ++ [⟨"b.yaml", "id2"⟩])
        ⟨[], ⟨2, 0, 0, 0⟩, [], []⟩ =
      syncLoop ⟨false, false, 0⟩
        ⟨fun _ => none, fun _ => none, fun _ => none, some [],
          fun _ => none⟩ (fun _ => none) [⟨"b.yaml", "id2"⟩]
        (syncLoop ⟨false, false, 0⟩
          ⟨fun _ => none, fun _ => none, fun _ => none, some [],
            fun _ => none⟩ (fun _ => none) [⟨"a.yaml", "id1"⟩]
          ⟨[], ⟨2, 0, 0, 0⟩, [], []⟩) ∧
    syncAll ⟨false, false, 0⟩
        ⟨fun _ => some true, fun _ => none, fun _ => none, none,
          fun _ => none⟩ (some ⟨[⟨"a.yaml", "id1"⟩]⟩) [] = none ∧
    processApp ⟨false, false, 0⟩
        ⟨fun _ => none, fun _ => none, fun _ => none, some [],
          fun _ => none⟩ (fun _ => none) ⟨[], ⟨1, 0, 0, 0⟩, [], []⟩
        ⟨"a.yaml", "id1"⟩ = ⟨[], ⟨1, 0, 0, 0⟩, [], []⟩ ∧
    (processApp ⟨false, false, 0⟩
        ⟨fun _ => some true, fun _ => none, fun _ => none, some [],
          fun _ => none⟩ (fun _ => none) ⟨[], ⟨1, 0, 0, 0⟩, [], []⟩
        ⟨"a.yaml", "id1"⟩).stats.errors = 0 + 1 := by
  refine ⟨(errorIsolation_amended ⟨false, false, 0⟩
      ⟨fun _ => none, fun _ => none, fun _ => none, some [],
        fun _ => none⟩ (fun _ => none) []).1
      [⟨"a.yaml", "id1"⟩] [⟨"b.yaml", "id2"⟩] ⟨[], ⟨2, 0, 0, 0⟩, [], []⟩,
    (errorIsolation_amended ⟨false, false, 0⟩
      ⟨fun _ => some true, fun _ => none, fun _ => none, none,
        fun _ => none⟩ (fun _ => none) []).2.2.1 rfl
      (some ⟨[⟨"a.yaml", "id1"⟩]⟩),
    (errorIsolation_amended ⟨false, false, 0⟩
      ⟨fun _ => none, fun _ => none, fun _ => none, some [],
        fun _ => none⟩ (fun _ => none) []).2.2.2.1
      ⟨[], ⟨1, 0, 0, 0⟩, [], []⟩ ⟨"a.yaml", "id1"⟩ rfl,
    (errorIsolation_amended ⟨false, false, 0⟩
      ⟨fun _ => some true, fun _ => none, fun _ => none, some [],
        fun _ => none⟩ (fun _ => none) []).2.2.2.2
      ⟨[], ⟨1, 0, 0, 0⟩, [], []⟩ ⟨"a.yaml", "id1"⟩ rfl
      (fun ra hra => by simp at hra) rfl⟩

/-! ## Deletion-handling lemmas -/

theorem processApp_deletedApps_mono (cfg : Config) (r : Remote)
    (remoteApps : String → Option AppInfo) (st : LoopSt)
    (app a : AppMapping) (h : a ∈ st.deletedApps) :
    a ∈ (processApp cfg r remoteApps st app).deletedApps := by
  rw [processApp]
  cases r.doesDSLExist app.appID with
  | none => exact h
  | some b =>
    cases b with
    | false => exact List.mem_append_left _ h
    | true =>
      cases remoteApps app.appID with
      | none => exact h
      | some ra =>
        dsimp only
        by_cases hne : app.filename ≠ sanitizeFilename ra.name ++ ".yaml"
        · rw [if_pos hne]
          exact h
        · rw [if_neg hne]
          exact h

theorem syncLoop_deletedApps_mono (cfg : Config) (r : Remote)
    (remoteApps : String → Option AppInfo) (apps : List AppMapping)
    (a : AppMapping) :
    ∀ st : LoopSt, a ∈ st.deletedApps →
      a ∈ (syncLoop cfg r remoteApps apps st).deletedApps := by
  induction apps with
  | nil => intro st h; exact h
  | cons b rest ih =>
    intro st h
    exact ih (processApp cfg r remoteApps st b)
      (processApp_deletedApps_mono cfg r remoteApps st b a h)

theorem mem_deletedApps_syncLoop (cfg : Config) (r : Remote)
    (remoteApps : String → Option AppInfo) (a : AppMapping)
    (hdel : r.doesDSLExist a.appID = some false) :
    ∀ (apps : List AppMapping) (st : LoopSt), a ∈ apps →
      a ∈ (syncLoop cfg r remoteApps apps st).deletedApps := by
  intro apps
  induction apps with
  | nil => intro st h; exact absurd h (List.not_mem_nil a)
  | cons b rest ih =>
    intro st h
    rcases List.mem_cons.mp h with rfl | hrest
    · show a ∈ (syncLoop cfg r remoteApps rest
        (processApp cfg r remoteApps st a)).deletedApps
      apply syncLoop_deletedApps_mono
      have heq : processApp cfg r remoteApps st a =
          { st with
            fs := if cfg.dryRun then st.fs else st.fs.removeF a.filename
            stats := { st.stats with downloads := st.stats.downloads + 1 }
            deletedApps := st.deletedApps ++ [a] } := by
        rw [processApp, hdel]
      rw [heq]
      exact List.mem_append_right _ (List.mem_singleton.mpr rfl)
    · exact ih (processApp cfg r remoteApps st b) hrest

/-- Computation rule for `syncAll` once the app list is known. -/
theorem syncAll_eq_some (cfg : Config) (r : Remote) (appMap : AppMap)
    (fs0 : FS) (l : List AppInfo) (hl : r.appList = some l) :
    syncAll cfg r (some appMap) fs0 =
      (if ((syncLoop cfg r (lookupRemoteApp l) appMap.apps
            ⟨fs0, ⟨appMap.apps.length, 0, 0, 0⟩, [], []⟩).deletedApps.length > 0 ∨
          (syncLoop cfg r (lookupRemoteApp l) appMap.apps
            ⟨fs0, ⟨appMap.apps.length, 0, 0, 0⟩, [], []⟩).renamedApps.length > 0) ∧
          cfg.dryRun = false then
        some ((syncLoop cfg r (lookupRemoteApp l) appMap.apps
            ⟨fs0, ⟨appMap.apps.length, 0, 0, 0⟩, [], []⟩).stats,
          (syncLoop cfg r (lookupRemoteApp l) appMap.apps
            ⟨fs0, ⟨appMap.apps.length, 0, 0, 0⟩, [], []⟩).fs,
          some ⟨updatedAppsList appMap.apps
            (syncLoop cfg r (lookupRemoteApp l) appMap.apps
              ⟨fs0, ⟨appMap.apps.length, 0, 0, 0⟩, [], []⟩).deletedApps
            (syncLoop cfg r (lookupRemoteApp l) appMap.apps
              ⟨fs0, ⟨appMap.apps.length, 0, 0, 0⟩, [], []⟩).renamedApps⟩)
      else
        some ((syncLoop cfg r (lookupRemoteApp l) appMap.apps
            ⟨fs0, ⟨appMap.apps.length, 0, 0, 0⟩, [], []⟩).stats,
          (syncLoop cfg r (lookupRemoteApp l) appMap.apps
            ⟨fs0, ⟨appMap.apps.length, 0, 0, 0⟩, [], []⟩).fs, none)) := by
  unfold syncAll
  rw [hl]

theorem updatedAppsList_excludes (apps deleted renamed : List AppMapping)
    (a : AppMapping) (ha : a ∈ deleted) :
    ∀ e ∈ updatedAppsList apps deleted renamed, e.appID ≠ a.appID := by
  intro e he
  rw [updatedAppsList, List.mem_map] at he
  obtain ⟨b, hb, hfb⟩ := he
  rw [List.mem_filter] at hb
  have hkeep : ∀ d ∈ deleted, d.appID ≠ b.appID := by
    have h2 := hb.2
    simp only [Bool.not_eq_eq_eq_not, Bool.not_true, List.any_eq_false] at h2
    intro d hd
    simpa using h2 d hd
  have heb : e.appID = b.appID := by
    rcases hfind : renamed.find? (fun rn => rn.appID = b.appID) with _ | rn
    · rw [hfind] at hfb
      rw [← hfb]
    · rw [hfind] at hfb
      have := List.find?_some hfind
      rw [← hfb]
      exact of_decide_eq_true this
  intro hea
  exact hkeep a ha (by rw [← hea, heb])

/-- C4.  For every mapping entry whose remote record no longer exists
(`DoesDSLExist` returning `false`): the loop iteration removes the
local file (unless dry run), increments the `downloads` statistic,
records the entry as deleted, and the loop continues with the
remaining entries; in a non-dry run the persisted mapping is rewritten
and contains no entry with that remote id. -/
theorem deletion_handling (cfg : Config) (r : Remote)
    (remoteApps : String → Option AppInfo) (fs0 : FS)
    (appMap : AppMap) (a : AppMapping)
    (hdel : r.doesDSLExist a.appID = some false) :
    (∀ st : LoopSt, processApp cfg r remoteApps st a =
      { st with
        fs := if cfg.dryRun then st.fs else st.fs.removeF a.filename
        stats := { st.stats with downloads := st.stats.downloads + 1 }
        deletedApps := st.deletedApps ++ [a] }) ∧
    (∀ xs ys st, syncLoop cfg r remoteApps (xs ++ a :: ys) st =
      syncLoop cfg r remoteApps ys
        (processApp cfg r remoteApps (syncLoop cfg r remoteApps xs st) a)) ∧
    (cfg.dryRun = false → a ∈ appMap.apps →
      ∀ l, r.appList = some l →
      ∃ stats fsF sm, syncAll cfg r (some appMap) fs0 =
          some (stats, fsF, some sm) ∧
        ∀ e ∈ sm.apps, e.appID ≠ a.appID) := by
  refine ⟨?_, ?_, ?_⟩
  · intro st
    rw [processApp, hdel]
  · intro xs ys st
    rw [syncLoop_append]
    rfl
  · intro hnd ha l hl
    have hmem : a ∈ (syncLoop cfg r (lookupRemoteApp l) appMap.apps
        ⟨fs0, ⟨appMap.apps.length, 0, 0, 0⟩, [], []⟩).deletedApps :=
      mem_deletedApps_syncLoop cfg r (lookupRemoteApp l) a hdel
        appMap.apps _ ha
    have hlen : (syncLoop cfg r (lookupRemoteApp l) appMap.apps
        ⟨fs0, ⟨appMap.apps.length, 0, 0, 0⟩, [], []⟩).deletedApps.length > 0 :=
      List.length_pos_of_mem hmem
    refine ⟨(syncLoop cfg r (lookupRemoteApp l) appMap.apps
        ⟨fs0, ⟨appMap.apps.length, 0, 0, 0⟩, [], []⟩).stats,
      (syncLoop cfg r (lookupRemoteApp l) appMap.apps
        ⟨fs0, ⟨appMap.apps.length, 0, 0, 0⟩, [], []⟩).fs,
      ⟨updatedAppsList appMap.apps
        (syncLoop cfg r (lookupRemoteApp l) appMap.apps
          ⟨fs0, ⟨appMap.apps.length, 0, 0, 0⟩, [], []⟩).deletedApps
        (syncLoop cfg r (lookupRemoteApp l) appMap.apps
          ⟨fs0, ⟨appMap.apps.length, 0, 0, 0⟩, [], []⟩).renamedApps⟩, ?_, ?_⟩
    · rw [syncAll_eq_some cfg r appMap fs0 l hl,
        if_pos ⟨Or.inl hlen, hnd⟩]
    · exact updatedAppsList_excludes appMap.apps _ _ a hmem

/-- Witness for C4: a concrete one-entry mapping whose remote record
is gone — the file is removed, `downloads` is incremented, and the
persisted mapping excludes the id. -/
theorem deletion_handling_witness :
    processApp ⟨false, false, 0⟩
        ⟨fun _ => some false, fun _ => none, fun _ => none, some [],
          fun _ => none⟩ (fun _ => none)
        ⟨[("f.yaml", ⟨1, "c"⟩)], ⟨1, 0, 0, 0⟩, [], []⟩ ⟨"f.yaml", "id1"⟩ =
      ⟨[], ⟨1, 1, 0, 0⟩, [⟨"f.yaml", "id1"⟩], []⟩ ∧
    ∃ stats fsF sm, syncAll ⟨false, false, 0⟩
        ⟨fun _ => some false, fun _ => none, fun _ => none, some [],
          fun _ => none⟩ (some ⟨[⟨"f.yaml", "id1"⟩]⟩)
        [("f.yaml", ⟨1, "c"⟩)] = some (stats, fsF, some sm) ∧
      ∀ e ∈ sm.apps, e.appID ≠ "id1" := by
  constructor
  · rw [(deletion_handling ⟨false, false, 0⟩
      ⟨fun _ => some false, fun _ => none, fun _ => none, some [],
        fun _ => none⟩ (fun _ => none) [] ⟨[]⟩ ⟨"f.yaml", "id1"⟩ rfl).1
      ⟨[("f.yaml", ⟨1, "c"⟩)], ⟨1, 0, 0, 0⟩, [], []⟩]
    rfl
  · obtain ⟨stats, fsF, sm, hrun, hex⟩ := (deletion_handling ⟨false, false, 0⟩
      ⟨fun _ => some false, fun _ => none, fun _ => none, some [],
        fun _ => none⟩ (fun _ => none) [("f.yaml", ⟨1, "c"⟩)]
      ⟨[⟨"f.yaml", "id1"⟩]⟩ ⟨"f.yaml", "id1"⟩ rfl).2.2 rfl
      (by simp) [] rfl
    exact ⟨stats, fsF, sm, hrun, fun e he => hex e he⟩

/-! ## Rename handling -/

/-- Modelled from the spec's words (§4.3/§4.4 step 2), for comparison
with the code: the expected filename computed "using the current
reserved set and disk state, excluding the entry's own existing file
from the exists check". -/
def specExpectedFilename (reserved : List String) (fs : FS)
    (own : String) (base : String) : String :=
  dedupName (reserved ++ fs.names.filter (fun n => n ≠ own)) base

/-- Counterexample to C5 as stated: two entries whose remote records
share the display name `A`, the first entry's local file missing from
disk.  When the second entry is processed, the current reserved set
(names claimed earlier in the run) is `[A.yaml]` and its spec-expected
filename is therefore `A_1.yaml`, which differs from its stored
`Y.yaml` — yet the run renames its file to `A.yaml` and records
`A.yaml` (not `A_1.yaml`) in the working and persisted mapping: the
code deduplicates against the disk only, ignoring the reserved set. -/
theorem rename_handling_counterexample :
    specExpectedFilename
        ((syncLoop ⟨false, false, 0⟩
          ⟨fun _ => some true, fun _ => some ⟨"x", "A", .null⟩,
            fun _ => none,
            some [⟨"id1", "A", .null⟩, ⟨"id2", "A", .null⟩], fun _ => none⟩
          (lookupRemoteApp [⟨"id1", "A", .null⟩, ⟨"id2", "A", .null⟩])
          [⟨"X.yaml", "id1"⟩]
          ⟨[("Y.yaml", ⟨1, "y"⟩)], ⟨2, 0, 0, 0⟩, [], []⟩).renamedApps.map
            (fun m => m.filename))
        (syncLoop ⟨false, false, 0⟩
          ⟨fun _ => some true, fun _ => some ⟨"x", "A", .null⟩,
            fun _ => none,
            some [⟨"id1", "A", .null⟩, ⟨"id2", "A", .null⟩], fun _ => none⟩
          (lookupRemoteApp [⟨"id1", "A", .null⟩, ⟨"id2", "A", .null⟩])
          [⟨"X.yaml", "id1"⟩]
          ⟨[("Y.yaml", ⟨1, "y"⟩)], ⟨2, 0, 0, 0⟩, [], []⟩).fs
        "Y.yaml" (sanitizeFilename "A") = "A_1.yaml" ∧
    "A_1.yaml" ≠ "Y.yaml" ∧
    syncAll ⟨false, false, 0⟩
        ⟨fun _ => some true, fun _ => some ⟨"x", "A", .null⟩,
          fun _ => none,
          some [⟨"id1", "A", .null⟩, ⟨"id2", "A", .null⟩], fun _ => none⟩
        (some ⟨[⟨"X.yaml", "id1"⟩, ⟨"Y.yaml", "id2"⟩]⟩)
        [("Y.yaml", ⟨1, "y"⟩)] =
      some (⟨2, 0, 0, 0⟩, [("A.yaml", ⟨1, "y"⟩)],
        some ⟨[⟨"A.yaml", "id1"⟩, ⟨"A.yaml", "id2"⟩]⟩) := by
  refine ⟨?_, by decide, ?_⟩
  · rfl
  · rfl

/-- C5 (amended).  For every entry whose remote record exists and
appears in the fetched app list under a display name whose sanitized
form (plus `.yaml`) differs from the stored filename, the loop
iteration renames the local file (unless dry run) to the first
candidate name not currently on disk — deduplicated against the disk
state only: no reserved set is consulted and the entry's own file is
not excluded — records the entry under the new name in the working
mapping, leaves the statistics untouched, and performs no content sync
for that entry in that run; the rename target never collides with a
file currently on disk. -/
theorem rename_handling_amended (cfg : Config) (r : Remote)
    (remoteApps : String → Option AppInfo) (st : LoopSt)
    (a : AppMapping) (ra : AppInfo)
    (hex : r.doesDSLExist a.appID = some true)
    (hra : remoteApps a.appID = some ra)
    (hne : a.filename ≠ sanitizeFilename ra.name ++ ".yaml") :
    processApp cfg r remoteApps st a =
      { st with
        fs := if cfg.dryRun then st.fs
          else st.fs.renameF a.filename
            (dedupName st.fs.names (sanitizeFilename ra.name))
        renamedApps := st.renamedApps ++
          [⟨dedupName st.fs.names (sanitizeFilename ra.name), a.appID⟩] } ∧
    dedupName st.fs.names (sanitizeFilename ra.name) ∉ st.fs.names ∧
    (processApp cfg r remoteApps st a).stats = st.stats := by
  have heq : processApp cfg r remoteApps st a =
      { st with
        fs := if cfg.dryRun then st.fs
          else st.fs.renameF a.filename
            (dedupName st.fs.names (sanitizeFilename ra.name))
        renamedApps := st.renamedApps ++
          [⟨dedupName st.fs.names (sanitizeFilename ra.name), a.appID⟩] } := by
    rw [processApp, hex, hra]
    dsimp only
    rw [if_pos hne]
  exact ⟨heq, dedupName_not_mem st.fs.names (sanitizeFilename ra.name),
    by rw [heq]⟩

/-- Witness for the amended C5 at a concrete renamed entry. -/
theorem rename_handling_amended_witness :
    processApp ⟨false, false, 0⟩
        ⟨fun _ => some true, fun _ => some ⟨"id2", "A", .null⟩,
          fun _ => none, some [], fun _ => none⟩
        (fun _ => some ⟨"id2", "A", .null⟩)
        ⟨[("Y.yaml", ⟨1, "y"⟩)], ⟨1, 0, 0, 0⟩, [], []⟩ ⟨"Y.yaml", "id2"⟩ =
      ⟨[("A.yaml", ⟨1, "y"⟩)], ⟨1, 0, 0, 0⟩, [], [⟨"A.yaml", "id2"⟩]⟩ ∧
    "A.yaml" ∉ FS.names [("Y.yaml", ⟨1, "y"⟩)] := by
  have h := rename_handling_amended ⟨false, false, 0⟩
    ⟨fun _ => some true, fun _ => some ⟨"id2", "A", .null⟩,
      fun _ => none, some [], fun _ => none⟩
    (fun _ => some ⟨"id2", "A", .null⟩)
    ⟨[("Y.yaml", ⟨1, "y"⟩)], ⟨1, 0, 0, 0⟩, [], []⟩ ⟨"Y.yaml", "id2"⟩
    ⟨"id2", "A", .null⟩ rfl rfl (by decide)
  refine ⟨?_, ?_⟩
  · rw [h.1]
    rfl
  · have h2 := h.2.1
    revert h2
    show "A.yaml" ∉ FS.names [("Y.yaml", ⟨1, "y"⟩)] →
      "A.yaml" ∉ FS.names [("Y.yaml", ⟨1, "y"⟩)]
    exact id

/-! ## Mapping invariants -/

theorem initLoop_invariant (cfg : Config) (r : Remote) :
    ∀ (l : List AppInfo) (st : InitSt),
      st.used.Nodup → st.apps.map (fun a => a.filename) = st.used →
      (l.foldl (initStep cfg r) st).used.Nodup ∧
        (l.foldl (initStep cfg r) st).apps.map (fun a => a.filename) =
          (l.foldl (initStep cfg r) st).used := by
  intro l
  induction l with
  | nil => intro st h1 h2; exact ⟨h1, h2⟩
  | cons app rest ih =>
    intro st h1 h2
    apply ih
    · have hfree : dedupName (st.fs.names ++ st.used)
          (sanitizeFilename app.name) ∉ st.fs.names ++ st.used :=
        dedupName_not_mem _ _
      have hnotused : dedupName (st.fs.names ++ st.used)
          (sanitizeFilename app.name) ∉ st.used :=
        fun hmem => hfree (List.mem_append_right _ hmem)
      show (st.used ++ [dedupName (st.fs.names ++ st.used)
        (sanitizeFilename app.name)]).Nodup
      simp only [List.nodup_append, List.nodup_cons, List.not_mem_nil,
        not_false_iff, List.nodup_nil, and_true, true_and]
      exact ⟨h1, fun a ha => by
        simp only [List.mem_singleton]
        intro heq
        exact hnotused (heq ▸ ha)⟩
    · show (st.apps ++ [(⟨dedupName (st.fs.names ++ st.used)
          (sanitizeFilename app.name), app.id⟩ : AppMapping)]).map
          (fun a => a.filename) =
        st.used ++ [dedupName (st.fs.names ++ st.used)
          (sanitizeFilename app.name)]
      rw [List.map_append, h2]
      rfl

theorem initLoop_appIDs (cfg : Config) (r : Remote) :
    ∀ (l : List AppInfo) (st : InitSt),
      (l.foldl (initStep cfg r) st).apps.map (fun a => a.appID) =
        st.apps.map (fun a => a.appID) ++ l.map (fun a => a.id) := by
  intro l
  induction l with
  | nil => intro st; simp
  | cons app rest ih =>
    intro st
    rw [List.foldl_cons, ih]
    show (st.apps ++ [(⟨dedupName (st.fs.names ++ st.used)
          (sanitizeFilename app.name), app.id⟩ : AppMapping)]).map
          (fun a => a.appID) ++
        rest.map (fun a => a.id) =
      st.apps.map (fun a => a.appID) ++ (app.id :: rest.map (fun a => a.id))
    rw [List.map_append]
    simp

theorem initializeAppMap_apps (cfg : Config) (r : Remote) (fs0 : FS)
    (m : AppMap) (fsF : FS) (al : List AppInfo)
    (hl : r.appList = some al)
    (h : initializeAppMap cfg r fs0 = some (m, fsF)) :
    m.apps = (al.foldl (initStep cfg r) ⟨fs0, [], []⟩).apps := by
  rw [initializeAppMap, hl] at h
  dsimp only at h
  by_cases he : al.isEmpty
  · rw [if_pos he] at h
    exact absurd h (by simp)
  · rw [if_neg he] at h
    rw [Option.some.injEq] at h
    have h1 : ({ apps := (List.foldl (initStep cfg r)
        ⟨fs0, [], []⟩ al).apps } : AppMap) = m := congrArg Prod.fst h
    rw [← h1]

/-- Counterexample to C7 as stated: a mapping whose filenames and
remote ids start pairwise distinct, where rename handling retargets
one entry to a filename equal to another entry's stored filename
(whose own local file is absent from disk, so the disk-only
deduplication does not see it) — the persisted mapping then holds two
entries with the same filename. -/
theorem mapping_invariant_counterexample :
    ((⟨[⟨"B.yaml", "id1"⟩, ⟨"A.yaml", "id2"⟩]⟩ : AppMap).apps.map
      (fun m => m.filename)).Nodup ∧
    ((⟨[⟨"B.yaml", "id1"⟩, ⟨"A.yaml", "id2"⟩]⟩ : AppMap).apps.map
      (fun m => m.appID)).Nodup ∧
    syncAll ⟨false, false, 0⟩
        ⟨fun _ => some true, fun _ => some ⟨"x", "A", .null⟩,
          fun _ => none,
          some [⟨"id1", "A", .null⟩, ⟨"id2", "A", .null⟩], fun _ => none⟩
        (some ⟨[⟨"B.yaml", "id1"⟩, ⟨"A.yaml", "id2"⟩]⟩)
        [("B.yaml", ⟨1, "b"⟩)] =
      some (⟨2, 0, 1, 0⟩, [("A.yaml", ⟨1, "b"⟩)],
        some ⟨[⟨"A.yaml", "id1"⟩, ⟨"A.yaml", "id2"⟩]⟩) ∧
    ¬ ((⟨[⟨"A.yaml", "id1"⟩, ⟨"A.yaml", "id2"⟩]⟩ : AppMap).apps.map
      (fun m => m.filename)).Nodup := by
  refine ⟨by decide, by decide, ?_, by decide⟩
  rfl

/-- C7 (amended).  Initialization produces a mapping whose filenames
are pairwise distinct — every deduplicated name avoids both the names
already claimed in the run and the files on disk, so no pre-existing
unrelated file is silently overwritten — and whose remote ids are
pairwise distinct whenever the fetched app list's ids are; deletion
handling preserves filename distinctness of the persisted mapping.
(After rename handling the filename invariant can fail, as the
counterexample shows: the rename deduplication consults the disk
only.) -/
theorem mapping_invariant_amended (cfg : Config) (r : Remote) :
    (∀ (fs0 : FS) (m : AppMap) (fsF : FS),
      initializeAppMap cfg r fs0 = some (m, fsF) →
      (m.apps.map (fun a => a.filename)).Nodup) ∧
    (∀ (fs0 : FS) (m : AppMap) (fsF : FS) (al : List AppInfo),
      r.appList = some al → (al.map (fun a => a.id)).Nodup →
      initializeAppMap cfg r fs0 = some (m, fsF) →
      (m.apps.map (fun a => a.appID)).Nodup) ∧
    (∀ (bad : List String) (base : String), dedupName bad base ∉ bad) ∧
    (∀ (apps deleted : List AppMapping),
      (apps.map (fun a => a.filename)).Nodup →
      ((updatedAppsList apps deleted []).map (fun a => a.filename)).Nodup) := by
  refine ⟨?_, ?_, fun bad base => dedupName_not_mem bad base, ?_⟩
  · intro fs0 m fsF h
    cases hl : r.appList with
    | none =>
      rw [initializeAppMap, hl] at h
      exact absurd h (by simp)
    | some al =>
      rw [initializeAppMap_apps cfg r fs0 m fsF al hl h]
      have hinv := initLoop_invariant cfg r al ⟨fs0, [], []⟩
        List.nodup_nil rfl
      rw [hinv.2]
      exact hinv.1
  · intro fs0 m fsF al hl hids h
    rw [initializeAppMap_apps cfg r fs0 m fsF al hl h,
      initLoop_appIDs cfg r al ⟨fs0, [], []⟩]
    simpa using hids
  · intro apps deleted hnd
    have heq : updatedAppsList apps deleted [] =
        apps.filter (fun a => ! deleted.any (fun d => d.appID = a.appID)) := by
      rw [updatedAppsList]
      simp only [List.find?_nil]
      exact List.map_id' _
    rw [heq]
    exact List.Nodup.sublist
      ((List.filter_sublist apps).map (fun a => a.filename)) hnd

/-- Witness for the amended C7: a concrete initialization over two
remote records with the same display name and a pre-existing file of
the same base name yields three pairwise distinct filenames avoiding
the disk, and a concrete deletion rewrite keeps distinctness. -/
theorem mapping_invariant_amended_witness :
    (∀ m fsF, initializeAppMap ⟨false, false, 0⟩
      ⟨fun _ => some true, fun _ => none, fun _ => some "d",
        some [⟨"id1", "A", .null⟩, ⟨"id2", "A", .null⟩], fun _ => none⟩
      [("A.yaml", ⟨1, "pre"⟩)] = some (m, fsF) →
      (m.apps.map (fun a => a.filename)).Nodup) ∧
    dedupName ["A.yaml", "A_1.yaml"] "A" ∉ ["A.yaml", "A_1.yaml"] ∧
    ((updatedAppsList [⟨"a.yaml", "id1"⟩, ⟨"b.yaml", "id2"⟩]
      [⟨"a.yaml", "id1"⟩] []).map (fun a => a.filename)).Nodup := by
  refine ⟨?_, ?_, ?_⟩
  · intro m fsF h
    exact (mapping_invariant_amended ⟨false, false, 0⟩
      ⟨fun _ => some true, fun _ => none, fun _ => some "d",
        some [⟨"id1", "A", .null⟩, ⟨"id2", "A", .null⟩], fun _ => none⟩).1
      [("A.yaml", ⟨1, "pre"⟩)] m fsF h
  · exact (mapping_invariant_amended ⟨false, false, 0⟩
      ⟨fun _ => some true, fun _ => none, fun _ => some "d",
        some [⟨"id1", "A", .null⟩, ⟨"id2", "A", .null⟩],
        fun _ => none⟩).2.2.1 ["A.yaml", "A_1.yaml"] "A"
  · exact (mapping_invariant_amended ⟨false, false, 0⟩
      ⟨fun _ => some true, fun _ => none, fun _ => some "d",
        some [⟨"id1", "A", .null⟩, ⟨"id2", "A", .null⟩],
        fun _ => none⟩).2.2.2 [⟨"a.yaml", "id1"⟩, ⟨"b.yaml", "id2"⟩]
      [⟨"a.yaml", "id1"⟩] (by decide)

end Difync
